import Mathlib

/-!
Verification of the baseline JPEG decoder (`wangrunji0408/jpeg`).

This file is a shallow embedding of the decoder's core routines:

* the entropy-coded bit reader (`src/mcu.rs`, `BitReader`): `fillOnce`,
  `peek`, `peek16`, `consume`, `readValue`, `readDecodeHaffman`, `reset`;
* the MCU reader (`src/mcu.rs`, `McuReader`): `readBlockLoop`, `readDc`,
  `readBlock`, `mcuNext`;
* the DHT canonical Huffman-code assignment (`src/huffman.rs`,
  `Decoder::read_huffman_table`): `readHuffmanMap`;
* the marker scanner (`src/marker.rs`, `Decoder::next_marker`): `nextMarker`;
* the SOF0 parser (`src/start_of_frame_0.rs`): `readSOF0`;
* the fixed-point IDCT and the YCbCr to RGB conversion (`src/decode.rs`):
  `idctSample`, `idctList`, `chomp`, `toRgbPixel`;
* the quantization-table id assertion of `Decoder::read` (`src/lib.rs`).

Machine integers are modelled as `Nat`/`Int` with explicit two's-complement
wrapping (`wrap16`, `wrap32`) at the operations where the Rust release build
wraps.  Rust `i32` division (`/`) is `Int.tdiv`; an arithmetic right shift is
`Int.fdiv` by a power of two.  Fallible operations return `Res`, whose error
value distinguishes end-of-input, `InvalidData` I/O errors and Rust panics
(from `assert!` macros or out-of-bounds indexing).
-/

set_option maxRecDepth 2000

namespace Jpeg

/-- Two's-complement wrap into `i16`. -/
def wrap16 (x : Int) : Int := (x + 2 ^ 15) % 2 ^ 16 - 2 ^ 15

/-- Two's-complement wrap into `i32`. -/
def wrap32 (x : Int) : Int := (x + 2 ^ 31) % 2 ^ 32 - 2 ^ 31

/-- Outcomes of fallible decoder operations.  `eof` is an unexpected
end-of-input, `malformed` an `InvalidData` I/O error, `panicked` a Rust
panic (failed `assert!` / out-of-bounds index / division by zero). -/
inductive DecodeError where
  | eof
  | malformed
  | panicked
deriving DecidableEq, Repr

/-- Result of a fallible decoder operation. -/
inductive Res (α : Type) where
  | ok (a : α)
  | err (e : DecodeError)
deriving DecidableEq, Repr

/-- `BitReader` state (`src/mcu.rs`): the not-yet-consumed byte stream
(the `BufReader`), the 32-bit accumulator `buf`, and the number `count`
of valid low bits of `buf`. -/
structure BitReader where
  data : List Nat
  buf : Nat
  count : Nat
deriving DecidableEq, Repr

/-- `BitReader::read_byte`.  `fill_buf()?[0]` panics on an empty buffer,
so end-of-input is modelled as an error outcome here. -/
def readByte (st : BitReader) : Res (Nat × BitReader) :=
  match st.data with
  | [] => .err .eof
  | b :: rest => .ok (b, { st with data := rest })

/-- One iteration of the refill loop in `BitReader::peek`
(`for _ in 0..2 { .. }`, `src/mcu.rs` lines 239-255): if fewer than `n`
bits are buffered, shift in the next byte; a `0xFF` byte is followed by a
marker byte `C`, and for any `C ≠ 0x00` an extra zero byte is appended. -/
def fillOnce (n : Nat) (st : BitReader) : Res BitReader :=
  if n ≤ st.count then .ok st
  else
    match readByte st with
    | .err e => .err e
    | .ok (b, st1) =>
      let st2 : BitReader :=
        { st1 with buf := ((st.buf <<< 8) ||| b) % 2 ^ 32, count := st.count + 8 }
      if b = 0xFF then
        match readByte st2 with
        | .err e => .err e
        | .ok (c, st3) =>
          if c ≠ 0 then
            .ok { st3 with buf := (st3.buf <<< 8) % 2 ^ 32, count := st3.count + 8 }
          else .ok st3
      else .ok st2

/-- `BitReader::peek`: refill (the loop is unrolled to two iterations in
the source) and return the top `n` buffered bits, right-aligned, as `u16`. -/
def peek (n : Nat) (st : BitReader) : Res (Nat × BitReader) :=
  match fillOnce n st with
  | .err e => .err e
  | .ok st1 =>
    match fillOnce n st1 with
    | .err e => .err e
    | .ok st2 => .ok ((st2.buf >>> (st2.count - n)) % 2 ^ 16, st2)

/-- `BitReader::consume`: `count -= n; buf &= (1 << count) - 1`. -/
def consume (n : Nat) (st : BitReader) : BitReader :=
  { st with count := st.count - n, buf := st.buf % 2 ^ (st.count - n) }

/-- `BitReader::read_value`: decode a signed value of bit length `len`.
`peek(len)? as i16` is `wrap16`; `v >> (len - 1)` is an `i16` arithmetic
shift, i.e. `Int.fdiv` by `2 ^ (len - 1)`. -/
def readValue (len : Nat) (st : BitReader) : Res (Int × BitReader) :=
  if len = 0 then .ok (0, st)
  else
    match peek len st with
    | .err e => .err e
    | .ok (raw, st1) =>
      let v : Int := wrap16 raw
      let v : Int := if Int.fdiv v (2 ^ (len - 1)) = 0 then v - (2 ^ len - 1) else v
      .ok (v, consume len st1)

/-- `BitReader::peek_16`: fast path pulling one or two buffered non-`0xFF`
bytes at once, falling back to `peek(16)`.  The `BufReader` buffer is the
whole remaining stream. -/
def peek16 (st : BitReader) : Res (Nat × BitReader) :=
  match st.data with
  | b0 :: b1 :: rest =>
    if b0 ≠ 0xFF ∧ b1 ≠ 0xFF then
      if st.count < 8 then
        let st1 : BitReader :=
          { data := rest,
            buf := ((st.buf <<< 16) ||| (b0 <<< 8) ||| b1) % 2 ^ 32,
            count := st.count + 16 }
        .ok ((st1.buf >>> (st1.count - 16)) % 2 ^ 16, st1)
      else if st.count < 16 then
        let st1 : BitReader :=
          { data := b1 :: rest,
            buf := ((st.buf <<< 8) ||| b0) % 2 ^ 32,
            count := st.count + 8 }
        .ok ((st1.buf >>> (st1.count - 16)) % 2 ^ 16, st1)
      else peek 16 st
    else peek 16 st
  | _ => peek 16 st

/-- Modelled from the spec: the repository's `HuffmanTree` type is not among
the provided sources (`src/huffman.rs` only defines `HuffmanTable`; `mcu.rs`
imports `huffman::HuffmanTree` and calls its `get`).  Per spec section 3
(`HuffmanLUT`), section 4.3 and section 9, it is a 2^16-entry lookup table:
`get` of a 16-bit window returns `(code_length, symbol)` for the code that is
a prefix of the window, and `code_length = 0` when no code matches.  It is
modelled as a list of `(length, code value, symbol)` entries, `get` scanning
for an entry whose top `length` bits match the window. -/
abbrev HuffTree : Type := List (Nat × Nat × Nat)

/-- Modelled from the spec: lookup in the `HuffmanTree` 2^16-entry table. -/
def HuffTree.get (t : HuffTree) (x : Nat) : Nat × Nat :=
  match t.find? (fun e => x >>> (16 - e.1) = e.2.1) with
  | some e => (e.1, e.2.2)
  | none => (0, 0)

/-- `BitReader::read_decode_haffman`: peek 16 bits, look up `(len, val)`,
consume `len` bits, return the symbol.  (`debug_assert_ne!(len, 0)` is
compiled out in release builds.) -/
def readDecodeHaffman (map : HuffTree) (st : BitReader) : Res (Nat × BitReader) :=
  match peek16 st with
  | .err e => .err e
  | .ok (x, st1) =>
    let lv := map.get x
    .ok (lv.2, consume lv.1 st1)

/-- `BitReader::reset`: clear the buffer and consume the next marker.  When
fewer than 8 bits are buffered the marker was not peeked yet: two raw bytes
are read and `assert_eq!(buf[0], 0xFF)` panics if the first is not `0xFF`.
(`debug_assert_eq!(count, 16)` in the other branch is compiled out.) -/
def reset (st : BitReader) : Res BitReader :=
  if st.count < 8 then
    match st.data with
    | b0 :: _ :: rest =>
      if b0 = 0xFF then .ok { data := rest, buf := 0, count := 0 }
      else .err .panicked
    | _ => .err .eof
  else .ok { data := st.data, buf := 0, count := 0 }

/-- JPEG markers (`src/marker.rs`). -/
inductive Marker where
  | soi
  | sof0
  | sof2
  | dht
  | dqt
  | dri
  | sos
  | rst (n : Nat)
  | app (n : Nat)
  | com
  | eoi
deriving DecidableEq, Repr

/-- `impl TryFrom<u8> for Marker` (`src/marker.rs` lines 43-58). -/
def markerOfByte (b : Nat) : Option Marker :=
  if b = 0xC0 then some .sof0
  else if b = 0xC2 then some .sof2
  else if b = 0xC4 then some .dht
  else if 0xD0 ≤ b ∧ b ≤ 0xD7 then some (.rst (b - 0xD0))
  else if b = 0xD8 then some .soi
  else if b = 0xD9 then some .eoi
  else if b = 0xDA then some .sos
  else if b = 0xDB then some .dqt
  else if b = 0xDD then some .dri
  else if 0xE0 ≤ b ∧ b ≤ 0xEF then some (.app (b - 0xE0))
  else if b = 0xFE then some .com
  else none

/-- `Decoder::next_marker` (`src/marker.rs` lines 63-81): scan to the next
`0xFF`, skip a stuffed `0xFF 0x00`, otherwise convert the following byte
into a marker (`InvalidData` error when it is not a recognised marker). -/
def nextMarker : List Nat → Res Marker
  | [] => .err .eof
  | b :: rest =>
    if b ≠ 0xFF then nextMarker rest
    else
      match rest with
      | [] => .err .eof
      | c :: rest2 =>
        if c = 0 then nextMarker rest2
        else
          match markerOfByte c with
          | some m => .ok m
          | none => .err .malformed

/-! ### DHT canonical Huffman-code assignment (`src/huffman.rs`)

A `Code` is represented as in the source: the bit string with a `1`
prepended, as an integer (`Code::default()` is `1`, the empty string).
`code.double()` is `c * 2`, `code.inc()` is `c + 1`. -/

/-- Inner loop of `Decoder::read_huffman_table` for one length: emit `n`
codes `c, c+1, ...`, mapping each to the next symbol byte read from the
stream (end-of-input if the symbol bytes run out). -/
def emitCodes : Nat → Nat → List Nat → Res (List (Nat × Nat) × Nat × List Nat)
  | c, 0, syms => .ok ([], c, syms)
  | _, _ + 1, [] => .err .eof
  | c, n + 1, v :: syms =>
    match emitCodes (c + 1) n syms with
    | .err e => .err e
    | .ok (ps, c', rest) => .ok ((c, v) :: ps, c', rest)

/-- Outer loop of `Decoder::read_huffman_table`: for each count `L_l`,
`code.double()` and then emit `L_l` codes of that length. -/
def buildCodes : Nat → List Nat → List Nat → Res (List (Nat × Nat))
  | _, [], _ => .ok []
  | c, cnt :: counts, syms =>
    match emitCodes (c * 2) cnt syms with
    | .err e => .err e
    | .ok (ps, c', rest) =>
      match buildCodes c' counts rest with
      | .err e => .err e
      | .ok ps' => .ok (ps ++ ps')

/-- The canonicalisation part of `Decoder::read_huffman_table`
(`src/huffman.rs` lines 98-109) for one table: given the 16 count bytes and
the symbol byte stream, build the code-to-symbol mapping.
`assert_eq!(counts[15], 0, "not supported")` panics when `L_16 ≠ 0`, and the
loop `for &count in &counts[0..15]` only assigns codes of lengths 1 to 15. -/
def readHuffmanMap (counts syms : List Nat) : Res (List (Nat × Nat)) :=
  if counts.getD 15 0 = 0 then buildCodes 1 (counts.take 15) syms
  else .err .panicked

/-- Canonical code assignment as the spec words it (section 4.2 DHT):
codes are `(length, value, symbol)` triples; at each length the emitted
values are `code, code+1, ...` for the next `L_l` symbols.  Inner loop. -/
def specEmit : Nat → Nat → Nat → List Nat → Option (List (Nat × Nat × Nat) × Nat × List Nat)
  | _, code, 0, syms => some ([], code, syms)
  | _, _, _ + 1, [] => none
  | l, code, n + 1, v :: syms =>
    match specEmit l (code + 1) n syms with
    | none => none
    | some (ps, c', rest) => some ((l, code, v) :: ps, c', rest)

/-- Canonical code assignment as the spec words it: `initialise code = 0;
for each length: code ← code·2; emit L_l codes of length l`.  Outer loop,
carrying the current length and code value. -/
def specAssign : Nat → Nat → List Nat → List Nat → Option (List (Nat × Nat × Nat))
  | _, _, [], _ => some []
  | l, code, cnt :: counts, syms =>
    match specEmit (l + 1) (code * 2) cnt syms with
    | none => none
    | some (ps, c', rest) =>
      match specAssign (l + 1) c' counts rest with
      | none => none
      | some ps' => some (ps ++ ps')

/-- Canonical assignment per the spec, starting from `code = 0`, length 1. -/
def specCanonical (counts syms : List Nat) : Option (List (Nat × Nat × Nat)) :=
  specAssign 0 0 counts syms

/-! ### MCU reader (`src/mcu.rs`) -/

/-- An 8x8 coefficient block in file order, 64 `i16` values. -/
abbrev Block : Type := List Int

/-- The AC-coefficient loop of `McuReader::read_block` (`src/mcu.rs` lines
131-143).  `0x00` ends the block, `0xF0` skips 16 zeros, any other symbol
`RS` reads a signed value of length `S = RS & 0x0F` and stores it at
position `i + R` where `R = RS >> 4`; the store `x[i + zeros] = value`
panics when `i + zeros > 63`. -/
def readBlockIter (ac : HuffTree) : Nat → List Int → Nat → BitReader →
    Res (List Int × BitReader)
  | 0, x, _, st => .ok (x, st)
  | fuel + 1, x, i, st =>
    if i < 64 then
      match readDecodeHaffman ac st with
      | .err e => .err e
      | .ok (code, st1) =>
        if code = 0x00 then .ok (x, st1)
        else if code = 0xF0 then readBlockIter ac fuel x (i + 16) st1
        else
          let zeros := code >>> 4
          match readValue (code % 16) st1 with
          | .err e => .err e
          | .ok (v, st2) =>
            if i + zeros < 64 then
              readBlockIter ac fuel (x.set (i + zeros) v) (i + zeros + 1) st2
            else .err .panicked
    else .ok (x, st)

/-- The AC loop entered at position `i`.  The loop runs at most `64 - i`
iterations since `i` strictly increases, so the fuel `64` never runs out
and `readBlockIter`'s fuel-exhaustion branch is unreachable (see
`readBlockIter_fuel`). -/
def readBlockLoop (ac : HuffTree) (x : List Int) (i : Nat) (st : BitReader) :
    Res (List Int × BitReader) :=
  readBlockIter ac 64 x i st

/-- `McuReader::read_dc`: decode the DC length symbol from the component's
DC table, read the signed delta, add it to `last_dc[id]`, and return the
new predictor value together with the updated predictor list. -/
def readDc (tables : List (HuffTree × HuffTree)) (lastDc : List Int) (id : Nat)
    (st : BitReader) : Res (Int × List Int × BitReader) :=
  let dcTable := (tables.getD id ([], [])).1
  match readDecodeHaffman dcTable st with
  | .err e => .err e
  | .ok (len, st1) =>
    match readValue len st1 with
    | .err e => .err e
    | .ok (dv, st2) =>
      let dc := lastDc.getD id 0 + dv
      .ok (dc, lastDc.set id dc, st2)

/-- `McuReader::read_block`: DC coefficient at position 0, then the AC loop
starting at `i = 1` with the component's AC table. -/
def readBlock (tables : List (HuffTree × HuffTree)) (lastDc : List Int) (id : Nat)
    (st : BitReader) : Res (Block × List Int × BitReader) :=
  match readDc tables lastDc id st with
  | .err e => .err e
  | .ok (dc, lastDc1, st1) =>
    let x := (List.replicate 64 (0 : Int)).set 0 dc
    match readBlockLoop (tables.getD id ([], [])).2 x 1 st1 with
    | .err e => .err e
    | .ok (x1, st2) => .ok (x1, lastDc1, st2)

/-- The `for _ in 0..vertical { for _ in 0..horizontal { .. } }` loops of
`McuReader::next` for one component: read `n = v·h` blocks. -/
def readBlocksN (tables : List (HuffTree × HuffTree)) (id : Nat) :
    Nat → List Int → BitReader → Res (List Block × List Int × BitReader)
  | 0, lastDc, st => .ok ([], lastDc, st)
  | n + 1, lastDc, st =>
    match readBlock tables lastDc id st with
    | .err e => .err e
    | .ok (b, dc1, st1) =>
      match readBlocksN tables id n dc1 st1 with
      | .err e => .err e
      | .ok (bs, dc2, st2) => .ok (b :: bs, dc2, st2)

/-- The component loop of `McuReader::next`: components in declaration
order, `id` counting from 0, a component with sampling `(h, v)` yielding
`v·h` blocks. -/
def readComponents (tables : List (HuffTree × HuffTree)) :
    List (Nat × Nat) → Nat → List Int → BitReader →
    Res (List Block × List Int × BitReader)
  | [], _, lastDc, st => .ok ([], lastDc, st)
  | (h, v) :: comps, id, lastDc, st =>
    match readBlocksN tables id (v * h) lastDc st with
    | .err e => .err e
    | .ok (bs, dc1, st1) =>
      match readComponents tables comps (id + 1) dc1 st1 with
      | .err e => .err e
      | .ok (bs', dc2, st2) => .ok (bs ++ bs', dc2, st2)

/-- `McuReader` state: the bit reader, the per-component `(h, v)` sampling
factors from the SOF, the per-component `(DC, AC)` Huffman tables, the DC
predictors `last_dc`, the MCU counter `i`, the MCU total, and the restart
interval. -/
structure McuState where
  reader : BitReader
  components : List (Nat × Nat)
  tables : List (HuffTree × HuffTree)
  lastDc : List Int
  i : Nat
  total : Nat
  resetInterval : Option Nat
deriving DecidableEq, Repr

/-- `McuReader::next` (`src/mcu.rs` lines 86-108), restricted to the
entropy-decoding state: produce the next MCU's coefficient blocks (the
subsequent `itrans`/`to_rgb` are pure transformations of the produced
blocks, modelled separately, and do not touch the reader state), then, when
the restart interval `r` divides the incremented MCU counter, call
`reader.reset()` and zero all three DC predictors.  (`i % r` with `r = 0`
is a Rust division-by-zero panic.) -/
def mcuNext (st : McuState) : Res (Option (List Block) × McuState) :=
  if st.i = st.total then .ok (none, st)
  else
    let i1 := st.i + 1
    match readComponents st.tables st.components 0 st.lastDc st.reader with
    | .err e => .err e
    | .ok (blocks, dc1, rd1) =>
      let st1 : McuState := { st with reader := rd1, lastDc := dc1, i := i1 }
      match st.resetInterval with
      | some r =>
        if r = 0 then .err .panicked
        else if i1 % r = 0 then
          match reset rd1 with
          | .err e => .err e
          | .ok rd2 =>
            .ok (some blocks, { st1 with reader := rd2, lastDc := [0, 0, 0] })
        else .ok (some blocks, st1)
      | none => .ok (some blocks, st1)

/-! ### SOF0 parser (`src/start_of_frame_0.rs`) -/

/-- Read a big-endian `u16` from the byte stream (`Decoder::read_u16`). -/
def readU16 (data : List Nat) : Res (Nat × List Nat) :=
  match data with
  | b1 :: b0 :: rest => .ok (b1 * 256 + b0, rest)
  | _ => .err .eof

/-- Read one byte from the byte stream (`Decoder::read_byte`, `src/lib.rs`:
`read_exact`, so end-of-input is an `UnexpectedEof` error). -/
def readByte1 (data : List Nat) : Res (Nat × List Nat) :=
  match data with
  | b :: rest => .ok (b, rest)
  | _ => .err .eof

/-- Per-component info from the SOF0 header. -/
structure ComponentInfo where
  horizontalSampling : Nat
  verticalSampling : Nat
  quantTableId : Nat
deriving DecidableEq, Repr

/-- The parsed SOF0 header. -/
structure StartOfFrameInfo where
  precision : Nat
  height : Nat
  width : Nat
  componentInfos : List ComponentInfo
  maxHorizontalSampling : Nat
  maxVerticalSampling : Nat
deriving DecidableEq, Repr

/-- The component loop of `Decoder::read_start_of_frame_0`: for each of the
`n` declared components read `component_id` (`Component::try_from` fails
with `InvalidData` unless it is 1, 2 or 3), the sampling byte (high nibble
horizontal, low nibble vertical) and the quantization-table id, and store
the entry in slot `component_id - 1`. -/
def readSofComponents : Nat → List ComponentInfo → List Nat →
    Res (List ComponentInfo × List Nat)
  | 0, infos, data => .ok (infos, data)
  | n + 1, infos, data =>
    match readByte1 data with
    | .err e => .err e
    | .ok (id, d1) =>
      if 1 ≤ id ∧ id ≤ 3 then
        match readByte1 d1 with
        | .err e => .err e
        | .ok (sampling, d2) =>
          match readByte1 d2 with
          | .err e => .err e
          | .ok (qtid, d3) =>
            readSofComponents n
              (infos.set (id - 1) ⟨sampling >>> 4, sampling % 16, qtid⟩) d3
      else .err .malformed

/-- `Decoder::read_start_of_frame_0` (`src/start_of_frame_0.rs` lines
51-88): segment length (read and unused), precision byte, height, width,
component count, then the component entries; the maxima of the sampling
factors are taken over the three slots.  The precision byte and the
component count are stored and counted but not validated. -/
def readSOF0 (data : List Nat) : Res StartOfFrameInfo :=
  match readU16 data with
  | .err e => .err e
  | .ok (_, d1) =>
    match readByte1 d1 with
    | .err e => .err e
    | .ok (precision, d2) =>
      match readU16 d2 with
      | .err e => .err e
      | .ok (height, d3) =>
        match readU16 d3 with
        | .err e => .err e
        | .ok (width, d4) =>
          match readByte1 d4 with
          | .err e => .err e
          | .ok (n, d5) =>
            match readSofComponents n [⟨0, 0, 0⟩, ⟨0, 0, 0⟩, ⟨0, 0, 0⟩] d5 with
            | .err e => .err e
            | .ok (infos, _) =>
              .ok { precision := precision, height := height, width := width,
                    componentInfos := infos,
                    maxHorizontalSampling :=
                      (infos.map (·.horizontalSampling)).foldr max 0,
                    maxVerticalSampling :=
                      (infos.map (·.verticalSampling)).foldr max 0 }

/-! ### Quantization-table id assertion in `Decoder::read` (`src/lib.rs`) -/

/-- A parsed quantization table (`src/quantization_table.rs`). -/
structure QuantizationTable where
  id : Nat
  values : List Int
deriving DecidableEq, Repr

/-- Outcome of the table-id check inside `Decoder::read`: either control
proceeds to the scan, or an `assert_eq!` panic occurs.  The loop has no
error return path. -/
inductive ReadStep where
  | proceed
  | panicked
deriving DecidableEq, Repr

/-- The loop `for (i, qt) in quantization_tables.iter().enumerate()
{ assert_eq!(qt.id, i as u8); }` of `Decoder::read` (`src/lib.rs` lines
45-47), carrying the running index. -/
def qtIdCheck : List QuantizationTable → Nat → ReadStep
  | [], _ => .proceed
  | qt :: rest, i => if qt.id = i then qtIdCheck rest (i + 1) else .panicked

/-- The quantization-table id assertion of `Decoder::read`, from index 0. -/
def qtAssert (qts : List QuantizationTable) : ReadStep := qtIdCheck qts 0

/-! ### Fixed-point IDCT (`src/decode.rs`, `Block::idct`)

The kernel is `IDCT[i][j] = round(1024 * a(j) * cos((2i+1)·j·π/16))` with
`a(0) = 1/√2`, `a(j>0) = 1`, computed by the source in `f32` at run time;
the 64 rounded values below are what that computation produces. -/

/-- The 10-bit fixed-point IDCT kernel, row `i`, column `j`. -/
def idctKernel : List (List Int) :=
  [[724, 1004, 946, 851, 724, 569, 392, 200],
   [724, 851, 392, -200, -724, -1004, -946, -569],
   [724, 569, -392, -1004, -724, 200, 946, 851],
   [724, 200, -946, -569, 724, 851, -392, -1004],
   [724, -200, -946, 569, 724, -851, -392, 1004],
   [724, -569, -392, 1004, -724, -200, 946, -851],
   [724, -851, 392, 200, -724, 1004, -946, 569],
   [724, -1004, 946, -851, 724, -569, 392, -200]]

/-- Kernel lookup `IDCT[i][j]`. -/
def kget (i j : Nat) : Int := (idctKernel.getD i []).getD j 0

/-- First 1-D IDCT pass of `Block::idct`: `res1[j*8+i]` is the `i32` sum
over `x` of `self.0[i*8+x] * idct[j][x]` (each product and each addition
wrapping as `i32` in a release build). -/
def idctPass1 (b : Nat → Int) (j i : Nat) : Int :=
  (List.range 8).foldl (fun v x => wrap32 (v + wrap32 (b (i * 8 + x) * kget j x))) 0

/-- Second 1-D IDCT pass of `Block::idct`: the spatial sample at row `i`,
column `j` is `((v / 4) >> 20) as i16` where `v` accumulates
`res1[j*8+x] * idct[i][x]` over `x` (wrapping `i32` arithmetic; `/` is
Rust `i32` division, i.e. truncation, and `>> 20` an arithmetic shift). -/
def idctSample (b : Nat → Int) (i j : Nat) : Int :=
  let v := (List.range 8).foldl
    (fun v x => wrap32 (v + wrap32 (idctPass1 b j x * kget i x))) 0
  wrap16 (Int.fdiv (Int.tdiv v 4) (2 ^ 20))

/-- The full 8x8 spatial-domain output block of `Block::idct`, in row-major
order (`res2.0[i*8+j]`). -/
def idctList (b : Nat → Int) : List Int :=
  (List.range 64).map (fun k => idctSample b (k / 8) (k % 8))

/-- A DC-only coefficient block of magnitude `D`. -/
def dcBlockF (D : Int) : Nat → Int := fun k => if k = 0 then D else 0

/-! ### YCbCr to RGB conversion (`src/decode.rs`, `Mcu::to_rgb`) -/

/-- `fixed(1.402)`: `(1.402_f32 * 1024.0) as i32`.  The `f32` product is
`1435.64794921875` and `as` truncates, giving 1435. -/
def fixed1402 : Int := 1435

/-- `fixed(0.344)`: the `f32` product is `352.2560119628906`, truncated to 352. -/
def fixed0344 : Int := 352

/-- `fixed(0.714)`: the `f32` product is `731.135986328125`, truncated to 731. -/
def fixed0714 : Int := 731

/-- `fixed(1.772)`: the `f32` product is `1814.5279541015625`, truncated to 1814. -/
def fixed1772 : Int := 1814

/-- `chomp` (`src/decode.rs` line 75-77):
`(((x >> 10) as i16).clamp(i8::MIN as _, i8::MAX as _) as i8 as u8) ^ 0x80`.
The arithmetic shift of the `i32` is `Int.fdiv` by `2^10`, the `as i16`
cast is `wrap16`, and the final byte is the two's-complement `u8` of the
clamped value XORed with `0x80`. -/
def chomp (x : Int) : Nat :=
  ((max (-128) (min 127 (wrap16 (Int.fdiv x (2 ^ 10))))) % 256).toNat ^^^ 0x80

/-- The per-pixel YCbCr to RGB conversion of `Mcu::to_rgb` (`src/decode.rs`
lines 81-86): `y` is shifted into 10-bit fixed point and the three channel
values are chomped.  Faithful for `i16`-range inputs (as produced by the
IDCT), for which none of the `i32` products overflow. -/
def toRgbPixel (y cb cr : Int) : Nat × Nat × Nat :=
  let y10 := y * 2 ^ 10
  (chomp (y10 + fixed1402 * cr),
   chomp (y10 - fixed0344 * cb - fixed0714 * cr),
   chomp (y10 + fixed1772 * cb))

/-- The conversion as the spec words it, for comparison with `toRgbPixel`:
constants 1436, 352, 731, 1815; arithmetic shift right by 10; clamp into
`[-128, 127]`; XOR with `0x80`.  (No intermediate 16-bit truncation.) -/
def specClampByte (x : Int) : Nat :=
  ((max (-128) (min 127 (Int.fdiv x (2 ^ 10)))) % 256).toNat ^^^ 0x80

/-- The spec's R, G, B formulas: `R = Y·1024 + 1436·Cr`,
`G = Y·1024 - 352·Cb - 731·Cr`, `B = Y·1024 + 1815·Cb`. -/
def specRgbPixel (y cb cr : Int) : Nat × Nat × Nat :=
  (specClampByte (y * 1024 + 1436 * cr),
   specClampByte (y * 1024 - 352 * cb - 731 * cr),
   specClampByte (y * 1024 + 1815 * cb))

/-! ### Concrete test artifacts used in the claims -/

/-- The bit-reader test stream `FF 00 AA 00 FF AA`. -/
def c2Start : BitReader := ⟨[0xFF, 0x00, 0xAA, 0x00, 0xFF, 0xAA], 0, 0⟩

/-- The reader state after `peek(n)` (peeks refill, so they change state). -/
def afterPeek (n : Nat) (st : BitReader) : BitReader :=
  match peek n st with
  | .ok (_, s) => s
  | .err _ => st

/-- The reader state after `read_value(len)`. -/
def afterValue (len : Nat) (st : BitReader) : BitReader :=
  match readValue len st with
  | .ok (_, s) => s
  | .err _ => st

/-- Reader states along the `FF 00 AA 00 FF AA` trace. -/
def c2s1 : BitReader := afterPeek 7 c2Start

/-- Trace state after the first `peek(16)`. -/
def c2s2 : BitReader := afterPeek 16 c2s1

/-- Trace state after the first `consume(4)`. -/
def c2s3 : BitReader := consume 4 c2s2

/-- Trace state after the second `peek(16)`. -/
def c2s4 : BitReader := afterPeek 16 c2s3

/-- Trace state after the second `consume(4)`. -/
def c2s5 : BitReader := consume 4 c2s4

/-- Trace state after the third `peek(16)`. -/
def c2s6 : BitReader := afterPeek 16 c2s5

/-- Trace state after `read_value(3)`. -/
def c2s7 : BitReader := afterValue 3 c2s6

/-- Trace state after `read_value(2)`. -/
def c2s8 : BitReader := afterValue 2 c2s7

/-- DC table for the restart scenario: symbol `s` (a bit length 0..3) has
the 2-bit code with value `s`. -/
def dcT : HuffTree := [(2, 0, 0), (2, 1, 1), (2, 2, 2), (2, 3, 3)]

/-- AC table for the restart scenario: the 1-bit code `0` is EOB. -/
def acT : HuffTree := [(1, 0, 0x00)]

/-- One DC/AC table pair per component. -/
def scenTables : List (HuffTree × HuffTree) := [(dcT, acT), (dcT, acT), (dcT, acT)]

/-- Initial `McuReader` state for the DC-prediction/restart scenario:
restart interval 2, three 4:4:4 MCUs whose component-0 DC deltas are
`+3`, `-1`, `+5`, with an `FF D0` restart marker after the second MCU and
`FF D9` (EOI) at the end. -/
def scen0 : McuState :=
  { reader := ⟨[0xB0, 0x08, 0x00, 0xFF, 0xD0, 0xE8, 0x00, 0xFF, 0xD9], 0, 0⟩,
    components := [(1, 1), (1, 1), (1, 1)],
    tables := scenTables,
    lastDc := [0, 0, 0],
    i := 0, total := 3, resetInterval := some 2 }

/-- The state after one `McuReader::next` call. -/
def stepState (st : McuState) : McuState :=
  match mcuNext st with
  | .ok (_, s) => s
  | .err _ => st

/-- The blocks produced by one `McuReader::next` call. -/
def stepBlocks (st : McuState) : Option (List Block) :=
  match mcuNext st with
  | .ok (b, _) => b
  | .err _ => none

/-- The DHT count vector `L = [0,1,5,1,1,1,1,1,1,0,0,0,0,0,0,0]`. -/
def exCounts : List Nat := [0, 1, 5, 1, 1, 1, 1, 1, 1, 0, 0, 0, 0, 0, 0, 0]

/-- The DHT symbol list `0..11`. -/
def exSyms : List Nat := [0, 1, 2, 3, 4, 5, 6, 7, 8, 9, 10, 11]

/-- AC table driving the block-decode overrun: code `1` is ZRL (`0xF0`),
code `01` is `0xF1` (run of 15 zeros, value length 1), code `00` is EOB. -/
def acRunTree : HuffTree := [(1, 1, 0xF0), (2, 1, 0xF1), (2, 0, 0x00)]

/-! ## Theorems -/

theorem wrap32_eq_self {x : Int} (h1 : -(2 ^ 31) ≤ x) (h2 : x < 2 ^ 31) :
    wrap32 x = x := by
  unfold wrap32
  omega

theorem wrap32_wrap32 (x : Int) : wrap32 (wrap32 x) = wrap32 x := by
  unfold wrap32
  omega

theorem wrap32_zero : wrap32 0 = 0 := by decide

theorem wrap16_eq_self {x : Int} (h1 : -(2 ^ 15) ≤ x) (h2 : x < 2 ^ 15) :
    wrap16 x = x := by
  unfold wrap16
  omega

/-- The fuel of `readBlockIter` is irrelevant as long as it covers the
remaining `64 - i` iterations; in particular the fuel-exhaustion branch of
`readBlockLoop = readBlockIter _ 64` is unreachable. -/
theorem readBlockIter_fuel (ac : HuffTree) :
    ∀ (fuel fuel' : Nat) (x : List Int) (i : Nat) (st : BitReader),
      64 ≤ fuel + i → 64 ≤ fuel' + i →
      readBlockIter ac fuel x i st = readBlockIter ac fuel' x i st := by
  intro fuel
  induction fuel with
  | zero =>
    intro fuel' x i st h h'
    match fuel' with
    | 0 => rfl
    | f + 1 =>
      simp only [readBlockIter]
      rw [if_neg (by omega)]
  | succ f ih =>
    intro fuel' x i st h h'
    match fuel' with
    | 0 =>
      simp only [readBlockIter]
      rw [if_neg (by omega)]
    | f' + 1 =>
      simp only [readBlockIter]
      by_cases hi : i < 64
      · rw [if_pos hi, if_pos hi]
        cases readDecodeHaffman ac st with
        | err e => rfl
        | ok p =>
          rcases p with ⟨code, st1⟩
          simp only
          by_cases h0 : code = 0
          · simp [h0]
          · by_cases hF : code = 0xF0
            · simp only [h0, hF, if_false, if_true, if_neg, if_pos]
              exact ih f' x (i + 16) st1 (by omega) (by omega)
            · simp only [h0, hF, if_false]
              cases readValue (code % 16) st1 with
              | err e => rfl
              | ok q =>
                rcases q with ⟨v, st2⟩
                simp only
                by_cases hz : i + code >>> 4 < 64
                · rw [if_pos hz, if_pos hz]
                  exact ih f' _ _ st2 (by omega) (by omega)
                · rw [if_neg hz, if_neg hz]
      · rw [if_neg hi, if_neg hi]

/-- C9 (counterexample): on the stream `FF FF D8` — a run of two `0xFF`
bytes in front of the SOI marker byte — `next_marker` does not skip the
padding and return the marker; it fails with an `InvalidData` error,
because the second `0xFF` is fed to `Marker::try_from`, which rejects it. -/
theorem claim_C9_counterexample : nextMarker [0xFF, 0xFF, 0xD8] = .err .malformed := by
  decide

/-- C9 (amended): whenever the scanner has just consumed a `0xFF` and the
following byte is another `0xFF` padding byte, `next_marker` fails with an
`InvalidData` error (`0xFF` is not a recognised marker value), no matter
what follows: runs of `0xFF` padding bytes are not tolerated. -/
theorem claim_C9 : ∀ rest : List Nat, nextMarker (0xFF :: 0xFF :: rest) = .err .malformed := by
  intro rest
  rfl

/-- C10: `Decoder::read` panics (it does not return a decode error — the
assertion loop has no error path) exactly when some parsed quantization
table's id differs from its position index in order of appearance. -/
theorem claim_C10 (qts : List QuantizationTable) :
    qtAssert qts = .panicked ↔ ∃ j, ∃ hj : j < qts.length, (qts.get ⟨j, hj⟩).id ≠ j := by
  have key : ∀ (l : List QuantizationTable) (k : Nat),
      qtIdCheck l k = .panicked ↔ ∃ j, ∃ hj : j < l.length, (l.get ⟨j, hj⟩).id ≠ k + j := by
    intro l
    induction l with
    | nil =>
      intro k
      simp [qtIdCheck]
    | cons qt rest ih =>
      intro k
      simp only [qtIdCheck]
      by_cases hid : qt.id = k
      · rw [if_pos hid, ih (k + 1)]
        constructor
        · rintro ⟨j, hj, hne⟩
          refine ⟨j + 1, by simpa using hj, ?_⟩
          have harith : k + (j + 1) = k + 1 + j := by omega
          rw [harith]
          simpa [List.get] using hne
        · rintro ⟨j, hj, hne⟩
          match j with
          | 0 => simp [List.get, hid] at hne
          | j + 1 =>
            refine ⟨j, by simpa using hj, ?_⟩
            have harith : k + 1 + j = k + (j + 1) := by omega
            rw [harith]
            simpa [List.get] using hne
      · rw [if_neg hid]
        constructor
        · intro _
          exact ⟨0, by simp, by simpa [List.get] using hid⟩
        · intro _
          rfl
  simpa using key qts 0

/-- C8 (counterexample): a well-formed SOF0 payload with precision byte 12
(height 2, width 4, three components with 4:2:0 sampling) is accepted by
`read_start_of_frame_0`, which returns the parsed header with
`precision = 12` instead of failing with an `UnsupportedFormat` error. -/
theorem claim_C8_counterexample :
    readSOF0 [0, 17, 12, 0, 2, 0, 4, 3, 1, 0x22, 0, 2, 0x11, 1, 3, 0x11, 1] =
      .ok ⟨12, 2, 4, [⟨2, 2, 0⟩, ⟨1, 1, 1⟩, ⟨1, 1, 1⟩], 2, 2⟩ := by
  decide

/-- C8 (amended): the SOF0 parser validates neither the precision byte nor
the component count.  For every precision byte `p` it accepts a payload
with `p` and three components, and it equally accepts a payload declaring
only one component (the two missing slots keep their zero defaults); the
only per-component check is that the component id is 1, 2 or 3. -/
theorem claim_C8 (p : Nat) (hp : p < 256) :
    readSOF0 [0, 17, p, 0, 2, 0, 4, 3, 1, 0x22, 0, 2, 0x11, 1, 3, 0x11, 1] =
        .ok ⟨p, 2, 4, [⟨2, 2, 0⟩, ⟨1, 1, 1⟩, ⟨1, 1, 1⟩], 2, 2⟩ ∧
      readSOF0 [0, 11, p, 0, 1, 0, 1, 1, 1, 0x11, 0] =
        .ok ⟨p, 1, 1, [⟨1, 1, 0⟩, ⟨0, 0, 0⟩, ⟨0, 0, 0⟩], 1, 1⟩ := by
  exact ⟨rfl, rfl⟩

/-- C8 (witness): the amended statement at `p = 12`. -/
theorem claim_C8_witness :
    readSOF0 [0, 17, 12, 0, 2, 0, 4, 3, 1, 0x22, 0, 2, 0x11, 1, 3, 0x11, 1] =
        .ok ⟨12, 2, 4, [⟨2, 2, 0⟩, ⟨1, 1, 1⟩, ⟨1, 1, 1⟩], 2, 2⟩ ∧
      readSOF0 [0, 11, 12, 0, 1, 0, 1, 1, 1, 0x11, 0] =
        .ok ⟨12, 1, 1, [⟨1, 1, 0⟩, ⟨0, 0, 0⟩, ⟨0, 0, 0⟩], 1, 1⟩ :=
  claim_C8 12 (by decide)

/-- C5 (counterexample): with the entropy stream `FF C0` — a `0xFF`
followed by a byte that is neither `0x00`, nor `RSTn`, nor EOI —
`BitReader::peek(16)` does not fail with a `MalformedStream` error: it
succeeds, returning `0xFF00` (the `0xFF` followed by an appended zero
byte). -/
theorem claim_C5_counterexample :
    peek 16 (⟨[0xFF, 0xC0], 0, 0⟩ : BitReader) =
      .ok (0xFF00, ⟨[], 0xFF00, 16⟩) := by
  decide

/-- C5 (amended): during refill, a `0xFF` byte followed by any byte
`C ≠ 0x00` — whether `C` is an `RSTn` byte, EOI, or any other marker byte —
is treated uniformly and never raises an error: the `0xFF` is shifted into
the accumulator, `C` is consumed from the stream, and a zero byte is
appended in place of further input. -/
theorem claim_C5 (n c : Nat) (rest : List Nat) (st : BitReader)
    (hdata : st.data = 0xFF :: c :: rest) (hc : c ≠ 0) (hn : st.count < n) :
    fillOnce n st =
      .ok ⟨rest, (((st.buf <<< 8 ||| 0xFF) % 2 ^ 32) <<< 8) % 2 ^ 32, st.count + 16⟩ := by
  unfold fillOnce readByte
  rw [hdata]
  rw [if_neg (by omega)]
  simp [hc]

/-- C5 (witness): the amended statement at the concrete refill
`FF C0` with `n = 16` on an empty accumulator. -/
theorem claim_C5_witness :
    fillOnce 16 (⟨[0xFF, 0xC0, 0xAB], 0, 0⟩ : BitReader) =
      .ok ⟨[0xAB], ((((0 : Nat) <<< 8 ||| 0xFF) % 2 ^ 32) <<< 8) % 2 ^ 32, 0 + 16⟩ :=
  claim_C5 16 0xC0 [0xAB] ⟨[0xFF, 0xC0, 0xAB], 0, 0⟩ rfl (by decide) (by decide)

theorem shiftOr_lt {buf b k : Nat} (hbuf : buf < 2 ^ k) (hb : b < 256) :
    (buf <<< 8) ||| b < 2 ^ (k + 8) := by
  have h1 : buf <<< 8 < 2 ^ (k + 8) := by
    rw [Nat.shiftLeft_eq, pow_add]
    exact Nat.mul_lt_mul_of_lt_of_le hbuf (le_refl _) (by norm_num)
  have h2 : b < 2 ^ (k + 8) := by
    refine lt_of_lt_of_le hb ?_
    calc (256 : Nat) = 2 ^ 8 := by norm_num
    _ ≤ 2 ^ (k + 8) := Nat.pow_le_pow_right (by norm_num) (by omega)
  exact Nat.or_lt_two_pow h1 h2

/-- One refill step preserves the bit-reader invariants (all stream bytes
below 256, the accumulator below `2 ^ count`, `count ≤ 32`); when a refill
was needed it buffers at least 8 more bits, and when not it is the
identity. -/
theorem fillOnce_inv {n : Nat} (hn : n ≤ 16) {st st' : BitReader}
    (hbytes : ∀ b ∈ st.data, b < 256) (hbuf : st.buf < 2 ^ st.count)
    (hcount : st.count ≤ 32) (h : fillOnce n st = .ok st') :
    (∀ b ∈ st'.data, b < 256) ∧ st'.buf < 2 ^ st'.count ∧ st'.count ≤ 32 ∧
      (st.count < n → st.count + 8 ≤ st'.count) ∧ (n ≤ st.count → st' = st) := by
  unfold fillOnce readByte at h
  by_cases hle : n ≤ st.count
  · rw [if_pos hle] at h
    simp only [Res.ok.injEq] at h
    subst h
    exact ⟨hbytes, hbuf, hcount, by omega, fun _ => rfl⟩
  · rw [if_neg hle] at h
    rcases hdata : st.data with _ | ⟨b, rest⟩
    · rw [hdata] at h
      exact absurd h (by simp)
    · rw [hdata] at h
      have hb : b < 256 := hbytes b (by rw [hdata]; exact List.mem_cons_self b rest)
      have hrest : ∀ b' ∈ rest, b' < 256 := fun b' hb' =>
        hbytes b' (by rw [hdata]; exact List.mem_cons_of_mem b hb')
      have hbuf1 : ((st.buf <<< 8) ||| b) % 2 ^ 32 < 2 ^ (st.count + 8) :=
        lt_of_le_of_lt (Nat.mod_le _ _) (shiftOr_lt hbuf hb)
      by_cases hFF : b = 0xFF
      · subst hFF
        simp only [reduceIte] at h
        rcases rest with _ | ⟨c, rest2⟩
        · exact absurd h (by simp)
        · have hrest2 : ∀ b' ∈ rest2, b' < 256 := fun b' hb' =>
            hrest b' (List.mem_cons_of_mem c hb')
          by_cases hc : c = 0
          · simp only [hc, ne_eq, not_true_eq_false, reduceIte, Res.ok.injEq] at h
            subst h
            refine ⟨hrest2, ?_, ?_, ?_, ?_⟩
            · exact hbuf1
            · show st.count + 8 ≤ 32
              omega
            · intro _
              show st.count + 8 ≤ st.count + 8
              omega
            · intro hcon
              omega
          · simp only [ne_eq, hc, not_false_eq_true, reduceIte, Res.ok.injEq] at h
            subst h
            refine ⟨hrest2, ?_, ?_, ?_, ?_⟩
            · show ((((st.buf <<< 8) ||| 0xFF) % 2 ^ 32) <<< 8) % 2 ^ 32 <
                2 ^ (st.count + 8 + 8)
              have hstep : ((((st.buf <<< 8) ||| 0xFF) % 2 ^ 32) <<< 8) <
                  2 ^ (st.count + 8 + 8) := by
                rw [Nat.shiftLeft_eq]
                calc ((((st.buf <<< 8) ||| 0xFF) % 2 ^ 32) * 2 ^ 8)
                    < 2 ^ (st.count + 8) * 2 ^ 8 :=
                      Nat.mul_lt_mul_of_lt_of_le hbuf1 (le_refl _) (by norm_num)
                _ = 2 ^ (st.count + 8 + 8) := by ring
              exact lt_of_le_of_lt (Nat.mod_le _ _) hstep
            · show st.count + 8 + 8 ≤ 32
              omega
            · intro _
              show st.count + 8 ≤ st.count + 8 + 8
              omega
            · intro hcon
              omega
      · simp only [hFF, reduceIte, Res.ok.injEq] at h
        subst h
        refine ⟨hrest, ?_, ?_, ?_, ?_⟩
        · exact hbuf1
        · show st.count + 8 ≤ 32
          omega
        · intro _
          show st.count + 8 ≤ st.count + 8
          omega
        · intro hcon
          omega

/-- A successful `peek(n)` (`1 ≤ n ≤ 16`) returns a value below `2 ^ n`
and a state with at least `n` buffered bits, preserving the invariants. -/
theorem peek_spec {n : Nat} (hn1 : 1 ≤ n) (hn : n ≤ 16) {st : BitReader}
    {raw : Nat} {st1 : BitReader}
    (hbytes : ∀ b ∈ st.data, b < 256) (hbuf : st.buf < 2 ^ st.count)
    (hcount : st.count ≤ 32) (h : peek n st = .ok (raw, st1)) :
    raw < 2 ^ n := by
  unfold peek at h
  split at h
  next e hA => simp at h
  next stA hA =>
    split at h
    next e hB => simp at h
    next stB hB =>
      simp only [Res.ok.injEq, Prod.mk.injEq] at h
      obtain ⟨hraw, hst1⟩ := h
      obtain ⟨hbytesA, hbufA, hcountA, hgrowA, hidA⟩ :=
        fillOnce_inv hn hbytes hbuf hcount hA
      obtain ⟨hbytesB, hbufB, hcountB, hgrowB, hidB⟩ :=
        fillOnce_inv hn hbytesA hbufA hcountA hB
      have hcnt : n ≤ stB.count := by
        by_cases h1 : n ≤ st.count
        · have : stA = st := hidA h1
          subst this
          have : stB = stA := hidB h1
          subst this
          exact h1
        · have hA8 : st.count + 8 ≤ stA.count := hgrowA (by omega)
          by_cases h2 : n ≤ stA.count
          · have : stB = stA := hidB h2
            subst this
            exact h2
          · have : stA.count + 8 ≤ stB.count := hgrowB (by omega)
            omega
      have hdiv : stB.buf >>> (stB.count - n) < 2 ^ n := by
        rw [Nat.shiftRight_eq_div_pow]
        rw [Nat.div_lt_iff_lt_mul (Nat.pos_pow_of_pos _ (by norm_num))]
        calc stB.buf < 2 ^ stB.count := hbufB
        _ = 2 ^ n * 2 ^ (stB.count - n) := by
            rw [← pow_add]
            congr 1
            omega
      subst hraw
      exact lt_of_le_of_lt (Nat.mod_le _ _) hdiv

/-- `read_value(len)` (`1 ≤ len ≤ 15`), given that its `peek` succeeds with
`raw`, returns `raw` when bit `len - 1` of `raw` is set and
`raw - (2^len - 1)` otherwise, and consumes `len` bits. -/
theorem readValue_spec {len : Nat} (hlen1 : 1 ≤ len) (hlen : len ≤ 15)
    {st : BitReader} {raw : Nat} {st1 : BitReader}
    (hbytes : ∀ b ∈ st.data, b < 256) (hbuf : st.buf < 2 ^ st.count)
    (hcount : st.count ≤ 32) (h : peek len st = .ok (raw, st1)) :
    readValue len st =
      .ok ((if raw.testBit (len - 1) then (raw : Int) else (raw : Int) - (2 ^ len - 1)),
        consume len st1) := by
  have hraw : raw < 2 ^ len := peek_spec hlen1 (by omega) hbytes hbuf hcount h
  have hr15 : raw < 2 ^ 15 :=
    lt_of_lt_of_le hraw (Nat.pow_le_pow_right (by norm_num) hlen)
  have hwrap : wrap16 (raw : Int) = (raw : Int) := by
    unfold wrap16
    have : (raw : Int) < 2 ^ 15 := by exact_mod_cast hr15
    omega
  have hpow : ((2 : Int) ^ (len - 1)) = ((2 ^ (len - 1) : Nat) : Int) := by
    push_cast
    rfl
  have hfdiv : Int.fdiv (raw : Int) (((2 ^ (len - 1) : Nat) : Int)) =
      ((raw / 2 ^ (len - 1) : Nat) : Int) := (Int.ofNat_fdiv raw (2 ^ (len - 1))).symm
  have hpos : 0 < 2 ^ (len - 1) := Nat.pos_pow_of_pos _ (by norm_num)
  have hq2 : raw / 2 ^ (len - 1) < 2 := by
    rw [Nat.div_lt_iff_lt_mul hpos]
    have hsucc : len - 1 + 1 = len := by omega
    have hsplit : 2 ^ len = 2 * 2 ^ (len - 1) := by
      conv_lhs => rw [← hsucc]
      rw [Nat.pow_succ, Nat.mul_comm]
    omega
  unfold readValue
  rw [if_neg (show ¬len = 0 by omega), h]
  show Res.ok
      ((if Int.fdiv (wrap16 (raw : Int)) (2 ^ (len - 1)) = 0
        then wrap16 (raw : Int) - (2 ^ len - 1) else wrap16 (raw : Int)),
        consume len st1) = _
  rw [hwrap, hpow, hfdiv]
  by_cases hlt : raw < 2 ^ (len - 1)
  · have hq0 : raw / 2 ^ (len - 1) = 0 := Nat.div_eq_of_lt hlt
    have htb : raw.testBit (len - 1) = false := by
      rw [Nat.testBit_to_div_mod, hq0]
      decide
    rw [hq0, htb]
    simp
  · have hq1 : raw / 2 ^ (len - 1) = 1 := by
      have h1 : 1 ≤ raw / 2 ^ (len - 1) := (Nat.one_le_div_iff hpos).mpr (by omega)
      omega
    have htb : raw.testBit (len - 1) = true := by
      rw [Nat.testBit_to_div_mod, hq1]
      decide
    rw [hq1, htb]
    simp

/-- C2: on the byte stream `FF 00 AA 00 FF AA` the bit reader's successive
`peek`/`consume`/`read_value` calls return exactly the values of the claim
(`peek(7) = 0b1111111`, `peek(16) = 0b1111111110101010`, after `consume(4)`
`peek(16) = 0b1111101010100000`, after another `consume(4)`
`peek(16) = 0b1010101000000000`, `read_value(3) = 5`,
`read_value(2) = -2`, `peek(11) = 0b01000000000`); and in general
`read_value(0)` returns 0, while for `1 ≤ len ≤ 15` a `read_value(len)`
whose peek yields `raw` returns `raw` when bit `len - 1` of `raw` is 1 and
`raw - (2^len - 1)` otherwise. -/
theorem claim_C2 :
    (peek 7 c2Start = .ok (0b1111111, c2s1) ∧
     peek 16 c2s1 = .ok (0b1111111110101010, c2s2) ∧
     peek 16 c2s3 = .ok (0b1111101010100000, c2s4) ∧
     peek 16 c2s5 = .ok (0b1010101000000000, c2s6) ∧
     readValue 3 c2s6 = .ok (5, c2s7) ∧
     readValue 2 c2s7 = .ok (-2, c2s8) ∧
     peek 11 c2s8 = .ok (0b01000000000, afterPeek 11 c2s8)) ∧
    (∀ st : BitReader, readValue 0 st = .ok (0, st)) ∧
    (∀ (st : BitReader) (len raw : Nat) (st1 : BitReader),
      1 ≤ len → len ≤ 15 →
      (∀ b ∈ st.data, b < 256) → st.buf < 2 ^ st.count → st.count ≤ 32 →
      peek len st = .ok (raw, st1) →
      readValue len st =
        .ok ((if raw.testBit (len - 1) then (raw : Int)
          else (raw : Int) - (2 ^ len - 1)), consume len st1)) := by
  refine ⟨by decide, fun st => rfl, ?_⟩
  intro st len raw st1 h1 h2 h3 h4 h5 h6
  exact readValue_spec h1 h2 h3 h4 h5 h6

/-- C2 (witness): the general decode-signed-value law applied at the
concrete reader state holding the three bits `101`, giving value 5. -/
theorem claim_C2_witness :
    readValue 3 (⟨[], 5, 3⟩ : BitReader) = .ok (5, consume 3 ⟨[], 5, 3⟩) := by
  have h := claim_C2.2.2 ⟨[], 5, 3⟩ 3 5 ⟨[], 5, 3⟩ (by decide) (by decide)
    (by simp) (by decide) (by decide) (by decide)
  simpa using h

/-- C4 (counterexample): decoding the AC coefficients of a block from the
entropy bytes `EE 00 00 00` against `acRunTree` (three ZRL symbols bring
`i` to 49, then symbol `0xF1` gives `i + zeros = 64 > 63`), the decoder
does not fail with a `MalformedStream` error: the store `x[i + zeros]`
panics with an out-of-bounds index. -/
theorem claim_C4_counterexample :
    readBlockLoop acRunTree (List.replicate 64 0) 1 ⟨[0xEE, 0x00, 0x00, 0x00], 0, 0⟩ =
      .err .panicked := by
  decide

/-- C4 (amended): when an AC run step would place a coefficient past index
63 (`i + (RS >> 4) > 63`), `read_block` panics on the out-of-bounds store
`x[i + zeros]` after having read the value bits — it does not return a
`MalformedStream` error; and when a ZRL step pushes `i` past 63, the block
decode ends silently with `Ok` instead of failing. -/
theorem claim_C4 :
    (∀ (ac : HuffTree) (x : List Int) (i code : Nat) (st st1 : BitReader)
        (v : Int) (st2 : BitReader),
      i < 64 → readDecodeHaffman ac st = .ok (code, st1) →
      code ≠ 0x00 → code ≠ 0xF0 →
      readValue (code % 16) st1 = .ok (v, st2) →
      ¬(i + code >>> 4 < 64) →
      readBlockLoop ac x i st = .err .panicked) ∧
    (∀ (ac : HuffTree) (x : List Int) (i : Nat) (st st1 : BitReader),
      i < 64 → readDecodeHaffman ac st = .ok (0xF0, st1) →
      64 ≤ i + 16 →
      readBlockLoop ac x i st = .ok (x, st1)) := by
  constructor
  · intro ac x i code st st1 v st2 hi hdec h0 hF hval hz
    unfold readBlockLoop
    show readBlockIter ac (63 + 1) x i st = .err .panicked
    unfold readBlockIter
    rw [if_pos hi, hdec]
    simp only [h0, hF, reduceIte, if_false]
    rw [hval]
    simp only [hz, reduceIte, if_false]
  · intro ac x i st st1 hi hdec h16
    unfold readBlockLoop
    show readBlockIter ac (63 + 1) x i st = .ok (x, st1)
    unfold readBlockIter
    rw [if_pos hi, hdec]
    simp only [reduceIte]
    show readBlockIter ac 63 x (i + 16) st1 = .ok (x, st1)
    show readBlockIter ac (62 + 1) x (i + 16) st1 = .ok (x, st1)
    unfold readBlockIter
    rw [if_neg (by omega)]

/-- C4 (witness): the amended statement applied at concrete inputs — a run
symbol `0x41` at `i = 60` (reaching index 64) panics, and a ZRL symbol at
`i = 60` ends the block with `Ok`. -/
theorem claim_C4_witness :
    readBlockLoop [(1, 1, 0x41)] (List.replicate 64 0) 60
        (⟨[], 0xFFFF, 16⟩ : BitReader) = .err .panicked ∧
      readBlockLoop [(1, 1, 0xF0)] (List.replicate 64 0) 60
        (⟨[], 0xFFFF, 16⟩ : BitReader) =
          .ok (List.replicate 64 0, ⟨[], 0x7FFF, 15⟩) :=
  ⟨claim_C4.1 [(1, 1, 0x41)] (List.replicate 64 0) 60 0x41
      ⟨[], 0xFFFF, 16⟩ ⟨[], 0x7FFF, 15⟩ 1 ⟨[], 16383, 14⟩
      (by decide) (by decide) (by decide) (by decide) (by decide) (by decide),
    claim_C4.2 [(1, 1, 0xF0)] (List.replicate 64 0) 60
      ⟨[], 0xFFFF, 16⟩ ⟨[], 0x7FFF, 15⟩ (by decide) (by decide) (by decide)⟩

/-- C6: whenever `McuReader::next` produces an MCU and the new MCU index is
a positive multiple of the restart interval, all three DC predictors are
zero immediately afterwards; and in the concrete scenario with restart
interval 2 and component-0 DC deltas `+3`, `-1`, `+5` the produced DC
values are 3, 2 and 5 (not 7), the predictors being zeroed after MCU #2. -/
theorem claim_C6 :
    (∀ (st st' : McuState) (blocks : List Block) (r : Nat),
      mcuNext st = .ok (some blocks, st') →
      st'.resetInterval = some r → 0 < r → st'.i % r = 0 →
      st'.lastDc = [0, 0, 0]) ∧
    ((stepBlocks scen0).map (fun bs => (bs.headD []).getD 0 0) = some 3 ∧
     (stepBlocks (stepState scen0)).map (fun bs => (bs.headD []).getD 0 0) = some 2 ∧
     (stepState (stepState scen0)).lastDc = [0, 0, 0] ∧
     (stepBlocks (stepState (stepState scen0))).map
       (fun bs => (bs.headD []).getD 0 0) = some 5) := by
  constructor
  · intro st st' blocks r h hres hr hmod
    unfold mcuNext at h
    by_cases htot : st.i = st.total
    · rw [if_pos htot] at h
      simp at h
    · rw [if_neg htot] at h
      split at h
      next e heq => simp at h
      next bs1 dc1 rd1 heq =>
        split at h
        next r' hsome =>
          split at h
          next hr0 => simp at h
          next hr0 =>
            split at h
            next e heqr =>
              dsimp only at h
              split at h
              next hdiv => simp at h
              next hdiv =>
                exfalso
                apply hdiv
                simp only [Res.ok.injEq, Prod.mk.injEq] at h
                have hst' : st' =
                    { st with reader := rd1, lastDc := dc1, i := st.i + 1 } := h.2.symm
                have hri : st.resetInterval = some r := by
                  rw [hst'] at hres
                  exact hres
                have hrr : r' = r := by
                  rw [hsome] at hri
                  exact Option.some.inj hri
                have hii : st'.i = st.i + 1 := by rw [hst']
                rw [hrr, ← hii]
                exact hmod
            next rd2 heqr =>
              dsimp only at h
              split at h
              next hdiv =>
                simp only [Res.ok.injEq, Prod.mk.injEq] at h
                rw [← h.2]
              next hdiv =>
                exfalso
                apply hdiv
                simp only [Res.ok.injEq, Prod.mk.injEq] at h
                have hst' : st' =
                    { st with reader := rd1, lastDc := dc1, i := st.i + 1 } := h.2.symm
                have hri : st.resetInterval = some r := by
                  rw [hst'] at hres
                  exact hres
                have hrr : r' = r := by
                  rw [hsome] at hri
                  exact Option.some.inj hri
                have hii : st'.i = st.i + 1 := by rw [hst']
                rw [hrr, ← hii]
                exact hmod
        next hnone =>
          exfalso
          simp only [Res.ok.injEq, Prod.mk.injEq] at h
          have hst' : st' =
              { st with reader := rd1, lastDc := dc1, i := st.i + 1 } := h.2.symm
          have hri : st.resetInterval = some r := by
            rw [hst'] at hres
            exact hres
          rw [hnone] at hri
          exact Option.noConfusion hri
  · exact ⟨by decide, by decide, by decide, by decide⟩

/-- C6 (witness): the reset law applied at the concrete scenario after the
second MCU (`i = 2`, restart interval 2). -/
theorem claim_C6_witness :
    mcuNext (stepState scen0) =
        .ok (some ((stepBlocks (stepState scen0)).getD []), stepState (stepState scen0)) ∧
      (stepState (stepState scen0)).lastDc = [0, 0, 0] :=
  ⟨by decide,
    claim_C6.1 (stepState scen0) (stepState (stepState scen0))
      ((stepBlocks (stepState scen0)).getD []) 2
      (by decide) (by decide) (by decide) (by decide)⟩

theorem byteXor128 : ∀ m : Fin 256,
    (m : Nat) ^^^ 128 =
      if (m : Nat) < 128 then (m : Nat) + 128 else (m : Nat) - 128 := by
  decide

/-- `chomp` equals the clamp followed by adding 128: for a byte holding a
two's-complement value in `[-128, 127]`, XOR with `0x80` is `+ 128`. -/
theorem chomp_eq (x : Int) :
    chomp x = (max (-128) (min 127 (wrap16 (Int.fdiv x (2 ^ 10)))) + 128).toNat := by
  unfold chomp
  set c := max (-128) (min 127 (wrap16 (Int.fdiv x (2 ^ 10)))) with hc
  have h1 : (-128 : Int) ≤ c := le_max_left _ _
  have h2 : c ≤ 127 := max_le (by norm_num) (min_le_left _ _)
  have hm : (c % 256).toNat < 256 := by omega
  have hx : (c % 256).toNat ^^^ 128 =
      if (c % 256).toNat < 128 then (c % 256).toNat + 128
      else (c % 256).toNat - 128 := byteXor128 ⟨(c % 256).toNat, hm⟩
  rw [hx]
  split <;> omega

/-- C3 (counterexample): at the pixel `(Y, Cb, Cr) = (0, 0, 87)` the code
produces the red byte 249 while the spec's formula (constant 1436) gives
250: the conversion does not compute `R = Y·1024 + 1436·Cr`. -/
theorem claim_C3_counterexample :
    toRgbPixel 0 0 87 = (249, 65, 128) ∧ specRgbPixel 0 0 87 = (250, 65, 128) := by
  decide

/-- C3 (amended): for every `i16`-range pixel triple the conversion
computes `R = Y·1024 + 1435·Cr`, `G = Y·1024 - 352·Cb - 731·Cr`,
`B = Y·1024 + 1814·Cb` (the `f32` fixed-point constants truncate, they do
not round), arithmetic-shifts each result right by 10, truncates it to 16
bits (two's complement), clamps it into `[-128, 127]` and flips the sign
bit — which on the clamped value is the same as adding 128. -/
theorem claim_C3 (y cb cr : Int)
    (hy1 : -(2 ^ 15) ≤ y) (hy2 : y < 2 ^ 15)
    (hb1 : -(2 ^ 15) ≤ cb) (hb2 : cb < 2 ^ 15)
    (hr1 : -(2 ^ 15) ≤ cr) (hr2 : cr < 2 ^ 15) :
    toRgbPixel y cb cr =
      ((max (-128) (min 127 (wrap16 (Int.fdiv (y * 1024 + 1435 * cr) (2 ^ 10)))) + 128).toNat,
       (max (-128) (min 127 (wrap16 (Int.fdiv (y * 1024 - 352 * cb - 731 * cr) (2 ^ 10)))) + 128).toNat,
       (max (-128) (min 127 (wrap16 (Int.fdiv (y * 1024 + 1814 * cb) (2 ^ 10)))) + 128).toNat) := by
  unfold toRgbPixel fixed1402 fixed0344 fixed0714 fixed1772
  dsimp only
  rw [chomp_eq, chomp_eq, chomp_eq]
  norm_num

/-- C3 (witness): the amended statement at the pixel `(0, 0, 87)`. -/
theorem claim_C3_witness :
    toRgbPixel 0 0 87 =
      ((max (-128) (min 127 (wrap16 (Int.fdiv ((0 : Int) * 1024 + 1435 * 87) (2 ^ 10)))) + 128).toNat,
       (max (-128) (min 127 (wrap16 (Int.fdiv ((0 : Int) * 1024 - 352 * 0 - 731 * 87) (2 ^ 10)))) + 128).toNat,
       (max (-128) (min 127 (wrap16 (Int.fdiv ((0 : Int) * 1024 + 1814 * 0) (2 ^ 10)))) + 128).toNat) :=
  claim_C3 0 0 87 (by decide) (by decide) (by decide) (by decide) (by decide) (by decide)

/-- Column 0 of the fixed-point kernel is `round(1024/√2) = 724` in every
row. -/
theorem kget_col0 (i : Nat) (hi : i < 8) : kget i 0 = 724 := by
  interval_cases i <;> rfl

/-- For a DC-only block, every first-pass row other than row 0 is zero. -/
theorem pass1_dc_zero (D : Int) (j c : Nat) (hc : 1 ≤ c) :
    idctPass1 (dcBlockF D) j c = 0 := by
  have hz : ∀ x : Nat, dcBlockF D (c * 8 + x) = 0 := by
    intro x
    unfold dcBlockF
    rw [if_neg (by omega)]
  unfold idctPass1
  rw [show List.range 8 = [0, 1, 2, 3, 4, 5, 6, 7] from rfl]
  simp only [List.foldl_cons, List.foldl_nil, hz, zero_mul, wrap32_zero, add_zero]

/-- For a DC-only block, first-pass row 0 is the wrapped product of the
magnitude with kernel entry `[j][0]`. -/
theorem pass1_dc_head (D : Int) (j : Nat) :
    idctPass1 (dcBlockF D) j 0 = wrap32 (D * kget j 0) := by
  have h0 : dcBlockF D (0 * 8 + 0) = D := by
    unfold dcBlockF
    rw [if_pos (by omega)]
  have hz : ∀ x : Nat, 1 ≤ x → dcBlockF D (0 * 8 + x) = 0 := by
    intro x hx
    unfold dcBlockF
    rw [if_neg (by omega)]
  unfold idctPass1
  rw [show List.range 8 = [0, 1, 2, 3, 4, 5, 6, 7] from rfl]
  simp only [List.foldl_cons, List.foldl_nil, h0,
    hz 1 (by omega), hz 2 (by omega), hz 3 (by omega), hz 4 (by omega),
    hz 5 (by omega), hz 6 (by omega), hz 7 (by omega),
    zero_mul, wrap32_zero, add_zero, zero_add, wrap32_wrap32]

/-- C7 (counterexample): at magnitude `D = 32767` the second IDCT pass
overflows `i32` (the accumulated product `724·724·32767` wraps), so every
spatial sample is `-1`, which is not within ±1 of `D/8 = 4095.875`. -/
theorem claim_C7_counterexample :
    idctSample (dcBlockF 32767) 0 0 = -1 ∧
      ¬(8 * idctSample (dcBlockF 32767) 0 0 - 32767).natAbs ≤ 8 := by
  constructor
  · decide
  · decide

/-- C7 (amended): the IDCT maps the all-zero block to the all-zero block
exactly; and for a DC-only block of magnitude `D` with `|D| ≤ 4096` (so
that the 32-bit accumulator does not overflow) every sample equals
`⌊131044·D / 2^20⌋`, a uniform value within ±1 of the ideal `D/8`
(`|8·sample - D| ≤ 8`). -/
theorem claim_C7 :
    idctList (fun _ => 0) = List.replicate 64 0 ∧
      (∀ (D : Int) (i j : Nat), -4096 ≤ D → D ≤ 4096 → i < 8 → j < 8 →
        idctSample (dcBlockF D) i j = Int.fdiv (131044 * D) (2 ^ 20) ∧
          (8 * Int.fdiv (131044 * D) (2 ^ 20) - D).natAbs ≤ 8) := by
  constructor
  · decide
  · intro D i j hD1 hD2 hi hj
    have hcol_i : kget i 0 = 724 := kget_col0 i hi
    have hcol_j : kget j 0 = 724 := kget_col0 j hj
    have hp0 : idctPass1 (dcBlockF D) j 0 = D * 724 := by
      rw [pass1_dc_head, hcol_j]
      exact wrap32_eq_self (by omega) (by omega)
    have hsample : idctSample (dcBlockF D) i j =
        wrap16 (Int.fdiv (Int.tdiv (wrap32 (D * 724 * 724)) 4) (2 ^ 20)) := by
      unfold idctSample
      rw [show List.range 8 = [0, 1, 2, 3, 4, 5, 6, 7] from rfl]
      simp only [List.foldl_cons, List.foldl_nil, hp0, hcol_i,
        pass1_dc_zero D j 1 (by omega), pass1_dc_zero D j 2 (by omega),
        pass1_dc_zero D j 3 (by omega), pass1_dc_zero D j 4 (by omega),
        pass1_dc_zero D j 5 (by omega), pass1_dc_zero D j 6 (by omega),
        pass1_dc_zero D j 7 (by omega),
        zero_mul, wrap32_zero, add_zero, zero_add, wrap32_wrap32]
    have hw : wrap32 (D * 724 * 724) = D * 524176 := by
      rw [mul_assoc]
      norm_num
      exact wrap32_eq_self (by omega) (by omega)
    have htd : Int.tdiv (D * 524176) 4 = D * 131044 := by
      rw [show (524176 : Int) = 131044 * 4 by norm_num, ← mul_assoc]
      exact Int.mul_tdiv_cancel _ (by norm_num)
    have hfd : Int.fdiv (D * 131044) (2 ^ 20) = (D * 131044) / (2 ^ 20) :=
      Int.fdiv_eq_ediv _ (by norm_num)
    have hval : idctSample (dcBlockF D) i j = (D * 131044) / (2 ^ 20) := by
      rw [hsample, hw, htd, hfd]
      exact wrap16_eq_self (by omega) (by omega)
    have hcomm : Int.fdiv (131044 * D) (2 ^ 20) = (D * 131044) / (2 ^ 20) := by
      rw [mul_comm]
      exact Int.fdiv_eq_ediv _ (by norm_num)
    constructor
    · rw [hval, hcomm]
    · rw [hcomm]
      omega

/-- C7 (witness): the amended DC statement at `D = 1024`, sample `(0,0)`:
the sample is `⌊131044·1024 / 2^20⌋ = 127` and `|8·127 - 1024| = 8`. -/
theorem claim_C7_witness :
    idctSample (dcBlockF 1024) 0 0 = Int.fdiv (131044 * 1024) (2 ^ 20) ∧
      (8 * Int.fdiv (131044 * 1024) (2 ^ 20) - 1024).natAbs ≤ 8 :=
  (claim_C7.2 1024 0 0 (by decide) (by decide) (by decide) (by decide))

/-- The source's prefix-1 code emission agrees with the spec's
`(length, value, symbol)` emission: a source code at length `l` with value
`v` is the integer `2 ^ l + v`. -/
theorem emitCodes_corr (l : Nat) :
    ∀ (n code : Nat) (syms : List Nat),
      emitCodes (2 ^ l + code) n syms =
        match specEmit l code n syms with
        | none => .err .eof
        | some (ps, c', rest) =>
          .ok (ps.map (fun t => (2 ^ t.1 + t.2.1, t.2.2)), 2 ^ l + c', rest) := by
  intro n
  induction n with
  | zero =>
    intro code syms
    rfl
  | succ m ih =>
    intro code syms
    cases syms with
    | nil => rfl
    | cons v rest =>
      simp only [emitCodes, specEmit]
      rw [show 2 ^ l + code + 1 = 2 ^ l + (code + 1) from by omega]
      rw [ih (code + 1) rest]
      cases specEmit l (code + 1) m rest with
      | none => rfl
      | some p =>
        rcases p with ⟨ps, c', rest'⟩
        rfl

/-- The source's per-length loop agrees with the spec's canonical
assignment, the source code being `2 ^ l + value` at each point. -/
theorem buildCodes_corr :
    ∀ (counts : List Nat) (l code : Nat) (syms : List Nat),
      buildCodes (2 ^ l + code) counts syms =
        match specAssign l code counts syms with
        | none => .err .eof
        | some ps => .ok (ps.map (fun t => (2 ^ t.1 + t.2.1, t.2.2))) := by
  intro counts
  induction counts with
  | nil =>
    intro l code syms
    rfl
  | cons cnt rest ih =>
    intro l code syms
    simp only [buildCodes, specAssign]
    rw [show (2 ^ l + code) * 2 = 2 ^ (l + 1) + code * 2 from by ring]
    rw [emitCodes_corr (l + 1) cnt (code * 2) syms]
    cases specEmit (l + 1) (code * 2) cnt syms with
    | none => rfl
    | some p =>
      rcases p with ⟨ps, c', rest'⟩
      simp only
      rw [ih (l + 1) c' rest']
      cases specAssign (l + 1) c' rest rest' with
      | none => rfl
      | some ps' =>
        simp only [List.map_append]

/-- C1 (counterexample): on a DHT table whose count vector has
`L_16 = 1` (one code of length 16) the parser assigns no mapping at all:
`assert_eq!(counts[15], 0, "not supported")` panics. -/
theorem claim_C1_counterexample :
    readHuffmanMap [0, 0, 0, 0, 0, 0, 0, 0, 0, 0, 0, 0, 0, 0, 0, 1] [7] =
      .err .panicked := by
  decide

/-- C1 (amended): for a 16-entry count vector with `L_16 = 0` the parser
assigns canonical codes exactly as the spec's scheme does, but only for
lengths 1 to 15 (`counts[0..15]`): the produced prefix-1 codes are
`2 ^ length + value` for the spec's `(length, value, symbol)` triples (and
the symbol-stream-exhausted case is an end-of-input error in both); in
particular for `L = [0,1,5,1,1,1,1,1,1,0,0,0,0,0,0,0]` with symbols `0..11`
the mapping is exactly `00↦0, 010↦1, 011↦2, 100↦3, 101↦4, 110↦5, 1110↦6,
11110↦7, 111110↦8, 1111110↦9, 11111110↦10, 111111110↦11`. -/
theorem claim_C1 (counts syms : List Nat)
    (hlen : counts.length = 16) (h16 : counts.getD 15 0 = 0) :
    (readHuffmanMap counts syms =
      match specCanonical (counts.take 15) syms with
      | none => .err .eof
      | some ps => .ok (ps.map (fun t => (2 ^ t.1 + t.2.1, t.2.2)))) ∧
    readHuffmanMap exCounts exSyms =
      .ok [(4, 0), (10, 1), (11, 2), (12, 3), (13, 4), (14, 5), (30, 6),
           (62, 7), (126, 8), (254, 9), (510, 10), (1022, 11)] := by
  constructor
  · unfold readHuffmanMap
    rw [if_pos h16]
    unfold specCanonical
    rw [show (1 : Nat) = 2 ^ 0 + 0 from by norm_num]
    exact buildCodes_corr (counts.take 15) 0 0 syms
  · decide

/-- C1 (witness): the amended statement at the concrete example table. -/
theorem claim_C1_witness :
    (readHuffmanMap exCounts exSyms =
      match specCanonical (exCounts.take 15) exSyms with
      | none => .err .eof
      | some ps => .ok (ps.map (fun t => (2 ^ t.1 + t.2.1, t.2.2)))) ∧
    readHuffmanMap exCounts exSyms =
      .ok [(4, 0), (10, 1), (11, 2), (12, 3), (13, 4), (14, 5), (30, 6),
           (62, 7), (126, 8), (254, 9), (510, 10), (1022, 11)] :=
  claim_C1 exCounts exSyms (by decide) (by decide)

end Jpeg
